import Mathlib

set_option maxRecDepth 16000

namespace BPNet

/-- Strings of the Go program are modelled as lists of characters.  Go indexes
strings by byte; every slicing operation of the scraper is applied where the
claims speak of characters, so the model uses characters throughout. -/
abbrev Str := List Char

/-- Model of Go strings.HasPrefix: true when the second list is a leading
segment of the first. -/
def startsWith : Str → Str → Bool
  | _, [] => true
  | [], _ :: _ => false
  | c :: s, d :: pat => (c == d) && startsWith s pat

/-- Model of unicode.IsSpace restricted to the Latin-1 white space characters
Go recognises (tab, newline, vertical tab, form feed, carriage return, space,
next line, no-break space).  The scraper only trims and splits text, so the
higher space code points change no claim. -/
def isGoSpace (c : Char) : Bool :=
  c.toNat = 32 || c.toNat = 9 || c.toNat = 10 || c.toNat = 11 ||
    c.toNat = 12 || c.toNat = 13 || c.toNat = 133 || c.toNat = 160

/-- Worker for strings.FieldsFunc: the second argument holds the current
field in reverse. -/
def fieldsByAux (f : Char → Bool) : Str → Str → List Str
  | [], acc => if acc.isEmpty then [] else [acc.reverse]
  | c :: rest, acc =>
    if f c then
      if acc.isEmpty then fieldsByAux f rest []
      else acc.reverse :: fieldsByAux f rest []
    else fieldsByAux f rest (c :: acc)

/-- Model of strings.FieldsFunc: split at the characters satisfying f,
dropping empty segments. -/
def fieldsBy (f : Char → Bool) (s : Str) : List Str := fieldsByAux f s []

/-- Model of strings.Fields (used by mergeDB for the word count). -/
def fields (s : Str) : List Str := fieldsBy isGoSpace s

/-- Model of strings.TrimSpace. -/
def trimSpace (s : Str) : Str :=
  ((s.dropWhile isGoSpace).reverse.dropWhile isGoSpace).reverse

/-- The cleaned paragraph sequence of markup (src/main.go): split the raw
text on newlines, trim every part, and keep the parts that stay nonempty. -/
def cleanedParts (text : Str) : List Str :=
  (fieldsBy (fun c => c == '\n') text).filterMap
    (fun p => if trimSpace p = [] then none else some (trimSpace p))

/-- The ellipsis appended to derived opening words (the rune 0x2026). -/
def ellipsisChar : Char := Char.ofNat 8230

def pOpen : Str := ("<p>").data

def pClose : Str := ("</p>").data

def commentcapsOpen : Str := ("<p class=\"commentcaps\">").data

def commentOpen : Str := ("<p class=\"comment\">").data

def openingOpen : Str := ("<p class=\"opening\"><span class=\"versal\">").data

def spanClose : Str := ("</span>").data

/-- Body block emitted for a paragraph with a leading double hash. -/
def commentcapsBlock (p : Str) : Str := commentcapsOpen ++ p.drop 2 ++ pClose

/-- Body block emitted for an asterisk paragraph that is not last. -/
def commentBlock (p : Str) : Str := commentOpen ++ p.drop 1 ++ pClose

/-- Body block emitted for a plain paragraph after the opening. -/
def plainBlock (p : Str) : Str := pOpen ++ p ++ pClose

/-- Body block emitted for the first qualifying paragraph: the first
character is isolated in a versal span. -/
def openingBlock (p : Str) : Str :=
  openingOpen ++ p.take 1 ++ spanClose ++ p.drop 1 ++ pClose

/-- The mutable state of markup's paragraph walk: the emitted body blocks,
the markedOpening flag, and the prayer fields the walk assigns. -/
structure MarkupState where
  markedParts : List Str
  markedOpening : Bool
  openingWords : Str
  citation : Str
deriving DecidableEq, Repr

/-- One iteration of markup's paragraph loop (src/main.go), classifying the
paragraph at position i of the cleaned sequence of length total. -/
def markupStep (total i : Nat) (st : MarkupState) (p : Str) : MarkupState :=
  if startsWith p ['#', '#'] = true then
    { st with markedParts := st.markedParts ++ [commentcapsBlock p] }
  else if startsWith p ['#'] = true then
    { st with openingWords := p.drop 1 }
  else if startsWith p ['*'] = true then
    if i = total - 1 then { st with citation := p.drop 1 }
    else { st with markedParts := st.markedParts ++ [commentBlock p] }
  else if st.markedOpening = true then
    { st with markedParts := st.markedParts ++ [plainBlock p] }
  else
    { st with
        openingWords :=
          p.take (if p.length < 35 then p.length else 35) ++ [ellipsisChar],
        markedParts := st.markedParts ++ [openingBlock p],
        markedOpening := true }

/-- markup's paragraph loop, walking the cleaned sequence from position i. -/
def markupLoop (total : Nat) : Nat → List Str → MarkupState → MarkupState
  | _, [], st => st
  | i, p :: rest, st => markupLoop total (i + 1) rest (markupStep total i st p)

/-- Run the markup walk on a raw text, starting from the given openingWords
and citation fields of the prayer (both empty in every run of the program). -/
def markupWithInit (ow0 cit0 : Str) (text : Str) : MarkupState :=
  markupLoop (cleanedParts text).length 0 (cleanedParts text)
    ⟨[], false, ow0, cit0⟩

/-- The markup walk on a raw text of a freshly decoded prayer. -/
def markup (text : Str) : MarkupState := markupWithInit [] [] text

/-- Join the emitted blocks with one blank line between consecutive blocks
and no trailing separator (the bytes.Buffer loop of markup). -/
def joinBlocks : List Str → Str
  | [] => []
  | p :: [] => p
  | p :: q :: rest => p ++ ['\n', '\n'] ++ joinBlocks (q :: rest)

/-- The marked-up body produced for a raw text. -/
def htmlPrayerOf (text : Str) : Str := joinBlocks (markup text).markedParts

/-- A prayer tag (src/main.go).  Kind is a plain string in the source. -/
structure Tag where
  ID : Int
  Name : Str
  Kind : Str
deriving DecidableEq, Repr

def tagKindGeneral : Str := ("GENERAL").data

def tagKindOccassional : Str := ("OCCASSIONAL").data

def tagKindTablets : Str := ("TABLETS").data

def tagKindObligatory : Str := ("OBLIGATORY").data

/-- A prayer record with its source fields and the derived fields the core
assigns (src/main.go).  The derived fields are empty strings until the
pipeline writes them, exactly as the Go zero values. -/
structure Prayer where
  ID : Int
  AuthorID : Int
  LanguageID : Int
  Text : Str
  FirstTagName : Str
  Tags : List Tag
  Title : Str
  category : Str
  citation : Str
  htmlPrayer : Str
  openingWords : Str
deriving DecidableEq, Repr

/-- Apply markup to one prayer, assigning htmlPrayer, openingWords and
citation from the walk over its raw text. -/
def markupPrayer (p : Prayer) : Prayer :=
  { p with
      htmlPrayer := joinBlocks (markupWithInit p.openingWords p.citation p.Text).markedParts,
      openingWords := (markupWithInit p.openingWords p.citation p.Text).openingWords,
      citation := (markupWithInit p.openingWords p.citation p.Text).citation }

/-- Model of markup over a whole prayer list. -/
def markupAll (prayers : List Prayer) : List Prayer := prayers.map markupPrayer

/-- A language record (src/main.go).  Only ID and ISOName influence the
behaviour the claims describe; the display fields come from the fetched
catalog. -/
structure Language where
  ID : Int
  Name : Str
  EnglishName : Str
  ISOName : Str
  LeftToRight : Bool
  PrayerCount : Int
deriving DecidableEq, Repr

def English : Int := 1
def Icelandic : Int := 2
def German : Int := 3
def Spanish : Int := 4
def Persian : Int := 5
def Arabic : Int := 6
def French : Int := 7
def Portuguese : Int := 8
def Chinese : Int := 9
def Italian : Int := 10
def Dutch : Int := 11
def Romanian : Int := 12
def Latvian : Int := 13
def Belarusian : Int := 14
def Russian : Int := 15

/-- Language.obligatory (src/main.go): some translation for the registered
ids, none where the Go method calls log.Fatalf. -/
def obligatory (l : Language) : Option Str :=
  if l.ID = English then some (("Obligatory").data)
  else if l.ID = German then some (("Pflichtgebet").data)
  else if l.ID = Russian then
    some (("Oбязательная").data)
  else none

/-- Language.tablets (src/main.go): note that the registered Russian value is
the empty string (a TODO in the source). -/
def tablets (l : Language) : Option Str :=
  if l.ID = English then some (("Tablets").data)
  else if l.ID = German then some (("Tableten").data)
  else if l.ID = Russian then some []
  else none

/-- Language.occassional (src/main.go). -/
def occassional (l : Language) : Option Str :=
  if l.ID = English then some (("Occassional").data)
  else if l.ID = German then some (("Besondere Gelegenheiten").data)
  else if l.ID = Russian then
    some (("случайный").data)
  else none

/-- Language.theFast (src/main.go). -/
def theFast (l : Language) : Option Str :=
  if l.ID = English then some (("The Fast").data)
  else none

/-- categorize's per-prayer body (src/main.go): inspect the first tag's kind;
none models the log.Fatalf aborts (unknown kind, or a missing label
translation inside the label methods).  A prayer with no tags would panic in
Go; that is modelled as none as well. -/
def categorizePrayer (lang : Language) (p : Prayer) : Option Prayer :=
  match p.Tags with
  | [] => none
  | tag :: _ =>
    if tag.Kind = tagKindGeneral then
      some { p with category := tag.Name }
    else if tag.Kind = tagKindObligatory then
      (obligatory lang).map (fun lbl => { p with category := lbl, Title := tag.Name })
    else if tag.Kind = tagKindOccassional then
      (occassional lang).map (fun lbl => { p with category := lbl, Title := tag.Name })
    else if tag.Kind = tagKindTablets then
      (tablets lang).map (fun lbl => { p with category := lbl })
    else none

/-- categorize over the whole prayer list. -/
def categorizeAll (lang : Language) (prayers : List Prayer) : Option (List Prayer) :=
  prayers.mapM (categorizePrayer lang)

/-- The static author-name table (src/main.go, languageAuthorMap), keyed by
ISO language code and author id.  Non-ASCII characters are written with
escapes. -/
def languageAuthorMap : List (Str × List (Int × Str)) :=
  [ (("en").data,
      [ (1, ("The Báb").data),
        (2, ("Bahá\x27u\x27lláh").data),
        (3, ("\x60Abdu\x27l-Bahá").data) ]),
    (("es").data,
      [ (1, ("El Báb").data),
        (2, ("Bahá\x27u\x27lláh").data),
        (3, ("\x60Abdu\x27l-Bahá").data) ]),
    (("fr").data,
      [ (1, ("Le Bab").data),
        (2, ("Bahá\x27u\x27lláh").data),
        (3, ("\x60Abdu\x27l-Bahá").data) ]),
    (("nl").data,
      [ (1, ("de Báb").data),
        (2, ("Bahá\x27u\x27lláh").data),
        (3, ("\x60Abdu\x27l-Bahá").data) ]),
    (("is").data,
      [ (1, ("Bábinn").data),
        (2, ("Bahá’u’lláh").data),
        (3, ("\x60Abdu\x27l-Bahá").data) ]),
    (("fj").data,
      [ (1, ("Na Báb").data),
        (2, ("Bahá’u’lláh").data),
        (3, ("\x60Abdu\x27l-Bahá").data) ]),
    (("cs").data,
      [ (1, ("Báb").data),
        (2, ("Bahá’u’lláh").data),
        (3, ("\x60Abdu\x27l-Bahá").data) ]),
    (("sk").data,
      [ (1, ("Báb").data),
        (2, ("Bahá’u’lláh").data),
        (3, ("\x60Abdu\x27l-Bahá").data) ]),
    (("de").data,
      [ (1, ("Báb").data),
        (2, ("Bahá’u’lláh").data),
        (3, ("\x60Abdu\x27l-Bahá").data) ]),
    (("ru").data,
      [ (1, ("Баб").data),
        (2, ("Бахаулла").data),
        (3, ("Абдул-Баха").data) ]) ]

/-- The author display name used by populateDatabase:
languageAuthorMap[iso][authorID] in Go, where indexing a missing key of a map
(or indexing a nil map) silently yields the zero value, the empty string. -/
def authorFor (iso : Str) (authorID : Int) : Str :=
  match languageAuthorMap.lookup iso with
  | none => []
  | some tbl =>
    match tbl.lookup authorID with
    | none => []
    | some name => name

/-- One row of a per-language store, as inserted by populateDatabase. -/
structure Row where
  id : Int
  category : Str
  prayerText : Str
  openingWords : Str
  citation : Str
  author : Str
  language : Str
deriving DecidableEq, Repr

/-- The store file of one language: the created prayers table and the rows
that have durably been committed into it. -/
structure DBFile where
  tableCreated : Bool
  rows : List Row
deriving DecidableEq, Repr

/-- The arguments of one insert of populateDatabase for a prayer: the
opening-words column takes the Title when it is nonempty and the derived
openingWords field otherwise. -/
def rowOf (iso : Str) (p : Prayer) : Row :=
  { id := p.ID,
    category := p.category,
    prayerText := p.htmlPrayer,
    openingWords := if p.Title ≠ [] then p.Title else p.openingWords,
    citation := p.citation,
    author := authorFor iso p.AuthorID,
    language := iso }

/-- os.Remove of the language's store file. -/
def osRemove (_fs : Option DBFile) : Option DBFile := none

/-- sql.Open plus the CREATE TABLE statement: a fresh store file holding the
empty prayers table, durable at once because it runs outside the
transaction. -/
def createStore (_fs : Option DBFile) : Option DBFile :=
  some { tableCreated := true, rows := [] }

/-- The insert loop of populateDatabase over the prayer list, with an oracle
naming the inserts that fail; the accumulator is the uncommitted transaction
buffer.  none models the log.Fatal taken on the first failing insert. -/
def insertAll (iso : Str) (insertFails : Nat → Bool) :
    Nat → List Prayer → List Row → Option (List Row)
  | _, [], acc => some acc
  | i, p :: rest, acc =>
    if insertFails i then none
    else insertAll iso insertFails (i + 1) rest (acc ++ [rowOf iso p])

/-- Outcome of one per-language write, carrying the durable store file.
fatalNoRollback is the log.Fatal exit taken on a failing insert: os.Exit
runs no deferred function, so tx.Rollback is skipped and the uncommitted
buffer is simply discarded.  errorRolledBack is the failing tx.Commit path,
on which the function returns and the deferred tx.Rollback does run. -/
inductive WriteResult where
  | committed (file : Option DBFile)
  | fatalNoRollback (file : Option DBFile)
  | errorRolledBack (file : Option DBFile)
deriving DecidableEq, Repr

/-- The durable store file of an outcome. -/
def storeOf : WriteResult → Option DBFile
  | WriteResult.committed f => f
  | WriteResult.fatalNoRollback f => f
  | WriteResult.errorRolledBack f => f

/-- populateDatabase (src/main.go): remove any old store file, create a fresh
one with the prayers table, insert one row per prayer inside a transaction,
and commit.  The two oracles choose which insert fails and whether the
commit fails; uncommitted rows are never durable.  Failures of sql.Open, of
the CREATE TABLE statement, or of db.Begin are outside the modelled oracle
(the claims speak only of inserts and the commit). -/
def populateDatabase (prior : Option DBFile) (lang : Language)
    (prayers : List Prayer) (insertFails : Nat → Bool) (commitFails : Bool) :
    WriteResult :=
  let fs := createStore (osRemove prior)
  match insertAll lang.ISOName insertFails 0 prayers [] with
  | none => WriteResult.fatalNoRollback fs
  | some buffer =>
    if commitFails then WriteResult.errorRolledBack fs
    else WriteResult.committed (some { tableCreated := true, rows := buffer })

/-- Worker for Go strings.Replace(s, pat, empty, -1): scan left to right and
delete each non-overlapping occurrence of pat.  The fuel argument only
bounds the recursion and starts at the length of s, which is enough because
every step consumes at least one character when pat is nonempty (every
pattern of the program is). -/
def replaceAllF (pat : Str) : Nat → Str → Str
  | _, [] => []
  | 0, s => s
  | n + 1, c :: rest =>
    if startsWith (c :: rest) pat && !pat.isEmpty then
      replaceAllF pat n ((c :: rest).drop pat.length)
    else c :: replaceAllF pat n rest

/-- Model of strings.Replace(s, pat, empty, -1) for a nonempty pattern. -/
def replaceAll (pat s : Str) : Str := replaceAllF pat s.length s

/-- The thirteen tags stripped by mergeDB, in the order of the source's
sequential Replace calls. -/
def tagVocabulary : List Str :=
  [ ("<p>").data,
    ("</p>").data,
    ("<p class=\"opening\">").data,
    ("<span class=\"versal\">").data,
    ("</span>").data,
    ("<p class=\"noindent\">").data,
    ("<br/>").data,
    ("<i>").data,
    ("</i>").data,
    ("<p class=\"comment\">").data,
    ("<p class=\"commentcaps\">").data,
    ("<em>").data,
    ("</em>").data ]

/-- The search text mergeDB derives from a stored prayer body: the thirteen
replacements applied sequentially in the source's order. -/
def searchTextOf (prayerText : Str) : Str :=
  tagVocabulary.foldl (fun acc pat => replaceAll pat acc) prayerText

/-- The word count mergeDB derives: the number of whitespace-delimited
tokens of the search text. -/
def wordCountOf (prayerText : Str) : Nat :=
  (fields (searchTextOf prayerText)).length

/-- Whether pat occurs as a contiguous segment of s. -/
def containsSub (s pat : Str) : Bool :=
  match s with
  | [] => pat.isEmpty
  | c :: rest => startsWith (c :: rest) pat || containsSub rest pat

/-- Worker for the spec-side stripper, with the same fuel convention as
replaceAllF. -/
def specStripF : Nat → Str → Str
  | _, [] => []
  | 0, s => s
  | n + 1, c :: rest =>
    match tagVocabulary.find? (fun pat => startsWith (c :: rest) pat) with
    | some pat => specStripF n ((c :: rest).drop pat.length)
    | none => c :: specStripF n rest

/-- Modelled from the spec: section 4.4 describes the normalizer as removing
exactly the enumerated tag occurrences while leaving all other text
untouched.  This single simultaneous left-to-right pass deletes exactly the
vocabulary occurrences found in the input and keeps every other character;
it is the comparison point for the sequential stripper of the source. -/
def specSimultaneousStrip (s : Str) : Str := specStripF s.length s

/-- A paragraph that reaches the final branch of the walk: no leading hash
and no leading asterisk. -/
def isPlainPara (p : Str) : Bool :=
  !startsWith p ['#'] && !startsWith p ['*']

/-- A paragraph with a single leading hash (and not a double one): it only
assigns openingWords and is never emitted. -/
def isSingleHash (p : Str) : Bool :=
  startsWith p ['#'] && !startsWith p ['#', '#']

/-- One when the last paragraph of the cleaned sequence carries a leading
asterisk (and is therefore dropped from the body), zero otherwise. -/
def lastStarCount (c : List Str) : Nat :=
  match c.getLast? with
  | none => 0
  | some l => if startsWith l ['*'] = true then 1 else 0

/-- The common leading text of the comment and commentcaps block tags, and
of no other emitted block. -/
def commentMarkerPre : Str := ("<p class=\"comment").data

/-- A concrete English language record; only ID and ISOName matter to the
pipeline, the display fields stand in for the fetched catalog entry. -/
def englishLang : Language :=
  { ID := 1, Name := ("English").data, EnglishName := ("English").data,
    ISOName := ("en").data, LeftToRight := true, PrayerCount := 0 }

/-- A concrete Russian language record. -/
def russianLang : Language :=
  { ID := 15, Name := ("Russian").data, EnglishName := ("Russian").data,
    ISOName := ("ru").data, LeftToRight := true, PrayerCount := 0 }

/-- A freshly decoded prayer whose first tag is a GENERAL tag named
Healing. -/
def healingPrayer : Prayer :=
  { ID := 11, AuthorID := 2, LanguageID := 1, Text := ("O God!").data,
    FirstTagName := ("Healing").data,
    Tags := [{ ID := 5, Name := ("Healing").data, Kind := tagKindGeneral }],
    Title := [], category := [], citation := [], htmlPrayer := [],
    openingWords := [] }

/-- A freshly decoded prayer whose first tag is an OBLIGATORY tag with an
empty name. -/
def emptyNameObligatoryPrayer : Prayer :=
  { ID := 12, AuthorID := 2, LanguageID := 1, Text := ("Hello").data,
    FirstTagName := [],
    Tags := [{ ID := 6, Name := [], Kind := tagKindObligatory }],
    Title := [], category := [], citation := [], htmlPrayer := [],
    openingWords := [] }

/-- The categorized form of emptyNameObligatoryPrayer for English. -/
def emptyNameObligatoryCategorized : Prayer :=
  { emptyNameObligatoryPrayer with category := ("Obligatory").data }

/-- The example input of the search-text claim. -/
def exampleMarked : Str :=
  ("<p class=\"opening\"><span class=\"versal\">O</span> Lord</p>").data

/-- An input on which removing an opening-paragraph tag creates a new
occurrence of the italic tag, which a later pass then also removes. -/
def cascadeInput : Str := ("<<p class=\"opening\">i>").data

/-- A freshly decoded prayer whose first tag is an OBLIGATORY tag named
Long Obligatory Prayer (the spec's example). -/
def longObligatoryPrayer : Prayer :=
  { ID := 14, AuthorID := 2, LanguageID := 1, Text := ("Hello").data,
    FirstTagName := ("Long Obligatory Prayer").data,
    Tags := [{ ID := 8, Name := ("Long Obligatory Prayer").data,
               Kind := tagKindObligatory }],
    Title := [], category := [], citation := [], htmlPrayer := [],
    openingWords := [] }

/-- The categorized form of longObligatoryPrayer for English. -/
def longObligatoryCategorized : Prayer :=
  { longObligatoryPrayer with
      category := ("Obligatory").data,
      Title := ("Long Obligatory Prayer").data }

/-- A freshly decoded prayer whose first tag has the unknown kind WEEKLY. -/
def weeklyPrayer : Prayer :=
  { ID := 13, AuthorID := 2, LanguageID := 1, Text := ("O God!").data,
    FirstTagName := ("Weekly").data,
    Tags := [{ ID := 7, Name := ("Weekly").data, Kind := ("WEEKLY").data }],
    Title := [], category := [], citation := [], htmlPrayer := [],
    openingWords := [] }

theorem startsWith_single_iff (p : Str) (d : Char) :
    startsWith p [d] = true ↔ ∃ t, p = d :: t := by
  cases p with
  | nil => simp [startsWith]
  | cons c t =>
    simp only [startsWith, Bool.and_eq_true, beq_iff_eq]
    constructor
    · rintro ⟨rfl, -⟩; exact ⟨t, rfl⟩
    · rintro ⟨t', ht⟩
      cases ht
      exact ⟨rfl, trivial⟩

theorem startsWith_pair_iff (p : Str) (d e : Char) :
    startsWith p [d, e] = true ↔ ∃ t, p = d :: e :: t := by
  cases p with
  | nil => simp [startsWith]
  | cons c t =>
    cases t with
    | nil =>
      simp [startsWith]
    | cons c' t' =>
      simp only [startsWith, Bool.and_eq_true, beq_iff_eq]
      constructor
      · rintro ⟨rfl, rfl, -⟩; exact ⟨t', rfl⟩
      · rintro ⟨t'', ht⟩
        cases ht
        exact ⟨rfl, rfl, trivial⟩

theorem hash_of_twoHash {p : Str} (h : startsWith p ['#', '#'] = true) :
    startsWith p ['#'] = true := by
  obtain ⟨t, rfl⟩ := (startsWith_pair_iff p _ _).1 h
  simp [startsWith]

theorem not_hash_of_star {p : Str} (h : startsWith p ['*'] = true) :
    startsWith p ['#'] = false ∧ startsWith p ['#', '#'] = false := by
  obtain ⟨t, rfl⟩ := (startsWith_single_iff p _).1 h
  cases t <;> simp [startsWith]

theorem markupStep_twoHash {p : Str} (total i : Nat) (st : MarkupState)
    (h : startsWith p ['#', '#'] = true) :
    markupStep total i st p
      = { st with markedParts := st.markedParts ++ [commentcapsBlock p] } := by
  unfold markupStep
  rw [if_pos h]

theorem markupStep_oneHash {p : Str} (total i : Nat) (st : MarkupState)
    (h2 : startsWith p ['#', '#'] = false) (h1 : startsWith p ['#'] = true) :
    markupStep total i st p = { st with openingWords := p.drop 1 } := by
  unfold markupStep
  rw [if_neg (by simp [h2]), if_pos h1]

theorem markupStep_star_last {p : Str} (total i : Nat) (st : MarkupState)
    (hs : startsWith p ['*'] = true) (hi : i = total - 1) :
    markupStep total i st p = { st with citation := p.drop 1 } := by
  obtain ⟨h1, h2⟩ := not_hash_of_star hs
  unfold markupStep
  rw [if_neg (by simp [h2]), if_neg (by simp [h1]), if_pos hs, if_pos hi]

theorem markupStep_star_nonlast {p : Str} (total i : Nat) (st : MarkupState)
    (hs : startsWith p ['*'] = true) (hi : ¬ i = total - 1) :
    markupStep total i st p
      = { st with markedParts := st.markedParts ++ [commentBlock p] } := by
  obtain ⟨h1, h2⟩ := not_hash_of_star hs
  unfold markupStep
  rw [if_neg (by simp [h2]), if_neg (by simp [h1]), if_pos hs, if_neg hi]

theorem markupStep_plain_opened {p : Str} (total i : Nat) (st : MarkupState)
    (h1 : startsWith p ['#'] = false) (hs : startsWith p ['*'] = false)
    (hmo : st.markedOpening = true) :
    markupStep total i st p
      = { st with markedParts := st.markedParts ++ [plainBlock p] } := by
  have h2 : startsWith p ['#', '#'] = false := by
    rcases hh : startsWith p ['#', '#'] with - | -
    · rfl
    · rw [hash_of_twoHash hh] at h1; cases h1
  unfold markupStep
  rw [if_neg (by simp [h2]), if_neg (by simp [h1]), if_neg (by simp [hs]),
    if_pos hmo]

theorem markupStep_plain_fresh {p : Str} (total i : Nat) (st : MarkupState)
    (h1 : startsWith p ['#'] = false) (hs : startsWith p ['*'] = false)
    (hmo : st.markedOpening = false) :
    markupStep total i st p
      = { st with
            openingWords :=
              p.take (if p.length < 35 then p.length else 35) ++ [ellipsisChar],
            markedParts := st.markedParts ++ [openingBlock p],
            markedOpening := true } := by
  have h2 : startsWith p ['#', '#'] = false := by
    rcases hh : startsWith p ['#', '#'] with - | -
    · rfl
    · rw [hash_of_twoHash hh] at h1; cases h1
  unfold markupStep
  rw [if_neg (by simp [h2]), if_neg (by simp [h1]), if_neg (by simp [hs]),
    if_neg (by simp [hmo])]

theorem not_star_of_hash {p : Str} (h : startsWith p ['#'] = true) :
    startsWith p ['*'] = false := by
  obtain ⟨t, rfl⟩ := (startsWith_single_iff p _).1 h
  simp [startsWith]

theorem markupStep_citation_eq (total i : Nat) (st : MarkupState) (p : Str) :
    (markupStep total i st p).citation =
      if startsWith p ['*'] = true ∧ i = total - 1 then p.drop 1
      else st.citation := by
  by_cases h2 : startsWith p ['#', '#'] = true
  · rw [markupStep_twoHash total i st h2]
    simp [not_star_of_hash (hash_of_twoHash h2)]
  · rw [Bool.not_eq_true] at h2
    by_cases h1 : startsWith p ['#'] = true
    · rw [markupStep_oneHash total i st h2 h1]
      simp [not_star_of_hash h1]
    · rw [Bool.not_eq_true] at h1
      by_cases hs : startsWith p ['*'] = true
      · by_cases hi : i = total - 1
        · rw [markupStep_star_last total i st hs hi]
          simp [hs, hi]
        · rw [markupStep_star_nonlast total i st hs hi]
          simp [hs, hi]
      · rw [Bool.not_eq_true] at hs
        by_cases hmo : st.markedOpening = true
        · rw [markupStep_plain_opened total i st h1 hs hmo]
          simp [hs]
        · rw [Bool.not_eq_true] at hmo
          rw [markupStep_plain_fresh total i st h1 hs hmo]
          simp [hs]

theorem markupStep_markedOpening_eq (total i : Nat) (st : MarkupState)
    (p : Str) :
    (markupStep total i st p).markedOpening
      = (st.markedOpening || isPlainPara p) := by
  by_cases h2 : startsWith p ['#', '#'] = true
  · rw [markupStep_twoHash total i st h2]
    simp [isPlainPara, hash_of_twoHash h2]
  · rw [Bool.not_eq_true] at h2
    by_cases h1 : startsWith p ['#'] = true
    · rw [markupStep_oneHash total i st h2 h1]
      simp [isPlainPara, h1]
    · rw [Bool.not_eq_true] at h1
      by_cases hs : startsWith p ['*'] = true
      · by_cases hi : i = total - 1
        · rw [markupStep_star_last total i st hs hi]
          simp [isPlainPara, hs]
        · rw [markupStep_star_nonlast total i st hs hi]
          simp [isPlainPara, hs]
      · rw [Bool.not_eq_true] at hs
        by_cases hmo : st.markedOpening = true
        · rw [markupStep_plain_opened total i st h1 hs hmo]
          simp [isPlainPara, h1, hs, hmo]
        · rw [Bool.not_eq_true] at hmo
          rw [markupStep_plain_fresh total i st h1 hs hmo]
          simp [isPlainPara, h1, hs, hmo]

theorem markupStep_len (total i : Nat) (st : MarkupState) (p : Str) :
    (markupStep total i st p).markedParts.length =
      st.markedParts.length +
        (if isSingleHash p = true ∨
             (startsWith p ['*'] = true ∧ i = total - 1) then 0 else 1) := by
  by_cases h2 : startsWith p ['#', '#'] = true
  · rw [markupStep_twoHash total i st h2]
    simp [isSingleHash, h2, not_star_of_hash (hash_of_twoHash h2)]
  · rw [Bool.not_eq_true] at h2
    by_cases h1 : startsWith p ['#'] = true
    · rw [markupStep_oneHash total i st h2 h1]
      simp [isSingleHash, h1, h2]
    · rw [Bool.not_eq_true] at h1
      by_cases hs : startsWith p ['*'] = true
      · by_cases hi : i = total - 1
        · rw [markupStep_star_last total i st hs hi]
          simp [isSingleHash, hs, hi]
        · rw [markupStep_star_nonlast total i st hs hi]
          simp [isSingleHash, (not_hash_of_star hs).1, hs, hi]
      · rw [Bool.not_eq_true] at hs
        by_cases hmo : st.markedOpening = true
        · rw [markupStep_plain_opened total i st h1 hs hmo]
          simp [isSingleHash, h1, hs]
        · rw [Bool.not_eq_true] at hmo
          rw [markupStep_plain_fresh total i st h1 hs hmo]
          simp [isSingleHash, h1, hs]

theorem markupStep_markedParts_grow (total i : Nat) (st : MarkupState)
    (p : Str) :
    ∃ new, (markupStep total i st p).markedParts
      = st.markedParts ++ new := by
  by_cases h2 : startsWith p ['#', '#'] = true
  · exact ⟨_, by rw [markupStep_twoHash total i st h2]⟩
  · rw [Bool.not_eq_true] at h2
    by_cases h1 : startsWith p ['#'] = true
    · exact ⟨[], by rw [markupStep_oneHash total i st h2 h1]; simp⟩
    · rw [Bool.not_eq_true] at h1
      by_cases hs : startsWith p ['*'] = true
      · by_cases hi : i = total - 1
        · exact ⟨[], by rw [markupStep_star_last total i st hs hi]; simp⟩
        · exact ⟨_, by rw [markupStep_star_nonlast total i st hs hi]⟩
      · rw [Bool.not_eq_true] at hs
        by_cases hmo : st.markedOpening = true
        · exact ⟨_, by rw [markupStep_plain_opened total i st h1 hs hmo]⟩
        · rw [Bool.not_eq_true] at hmo
          exact ⟨_, by rw [markupStep_plain_fresh total i st h1 hs hmo]⟩

theorem markupLoop_append (total : Nat) (xs ys : List Str) :
    ∀ (i : Nat) (st : MarkupState),
    markupLoop total i (xs ++ ys) st
      = markupLoop total (i + xs.length) ys (markupLoop total i xs st) := by
  induction xs with
  | nil => intro i st; simp [markupLoop]
  | cons x xs ih =>
    intro i st
    have hlen : i + (x :: xs).length = (i + 1) + xs.length := by
      simp; omega
    rw [List.cons_append, markupLoop, markupLoop, hlen, ih]

theorem markupLoop_citation (total : Nat) :
    ∀ (ps : List Str) (i : Nat) (st : MarkupState), i + ps.length = total →
    (markupLoop total i ps st).citation =
      match ps.getLast? with
      | none => st.citation
      | some l =>
        if startsWith l ['*'] = true then l.drop 1 else st.citation := by
  intro ps
  induction ps with
  | nil => intro i st _; simp [markupLoop]
  | cons p rest ih =>
    intro i st h
    cases rest with
    | nil =>
      have hi : i = total - 1 := by simp at h; omega
      rw [markupLoop, markupLoop, markupStep_citation_eq]
      simp only [List.getLast?_singleton]
      by_cases hs : startsWith p ['*'] = true
      · rw [if_pos ⟨hs, hi⟩, if_pos hs]
      · rw [Bool.not_eq_true] at hs
        rw [if_neg (by simp [hs]), if_neg (by simp [hs])]
    | cons q rs =>
      have hi : ¬ i = total - 1 := by simp at h; omega
      rw [markupLoop,
        ih (i + 1) (markupStep total i st p) (by simp at h ⊢; omega)]
      have hcit : (markupStep total i st p).citation = st.citation := by
        rw [markupStep_citation_eq, if_neg (by rintro ⟨-, h2⟩; exact hi h2)]
      rw [List.getLast?_cons_cons]
      cases (q :: rs).getLast? with
      | none => exact hcit
      | some l =>
        by_cases hs : startsWith l ['*'] = true
        · simp [hs]
        · rw [Bool.not_eq_true] at hs
          simp [hs, hcit]

theorem markupLoop_markedOpening (total : Nat) :
    ∀ (ps : List Str) (i : Nat) (st : MarkupState),
    (markupLoop total i ps st).markedOpening
      = (st.markedOpening || ps.any isPlainPara) := by
  intro ps
  induction ps with
  | nil => intro i st; simp [markupLoop]
  | cons p rest ih =>
    intro i st
    rw [markupLoop, ih, markupStep_markedOpening_eq]
    simp [Bool.or_assoc]

theorem markupLoop_len (total : Nat) :
    ∀ (ps : List Str) (i : Nat) (st : MarkupState), i + ps.length = total →
    (markupLoop total i ps st).markedParts.length
        + ps.countP (fun p => isSingleHash p) + lastStarCount ps
      = st.markedParts.length + ps.length := by
  intro ps
  induction ps with
  | nil => intro i st _; simp [markupLoop, lastStarCount]
  | cons p rest ih =>
    intro i st h
    cases rest with
    | nil =>
      have hi : i = total - 1 := by
        simp only [List.length_cons, List.length_nil] at h; omega
      rw [markupLoop, markupLoop]
      have hlen := markupStep_len total i st p
      by_cases h1 : isSingleHash p = true
      · have hs : startsWith p ['*'] = false := by
          have h1' := h1
          simp only [isSingleHash, Bool.and_eq_true] at h1'
          exact not_star_of_hash h1'.1
        rw [if_pos (Or.inl h1)] at hlen
        have hcp : List.countP (fun x => isSingleHash x) [p] = 1 := by
          simp [List.countP_cons, h1]
        have hls : lastStarCount [p] = 0 := by
          simp [lastStarCount, hs]
        rw [hcp, hls]
        simp only [List.length_cons, List.length_nil]
        omega
      · rw [Bool.not_eq_true] at h1
        have hcp : List.countP (fun x => isSingleHash x) [p] = 0 := by
          simp [List.countP_cons, h1]
        by_cases hs : startsWith p ['*'] = true
        · rw [if_pos (Or.inr ⟨hs, hi⟩)] at hlen
          have hls : lastStarCount [p] = 1 := by
            simp [lastStarCount, hs]
          rw [hcp, hls]
          simp only [List.length_cons, List.length_nil]
          omega
        · rw [Bool.not_eq_true] at hs
          rw [if_neg (by simp [h1, hs])] at hlen
          have hls : lastStarCount [p] = 0 := by
            simp [lastStarCount, hs]
          rw [hcp, hls]
          simp only [List.length_cons, List.length_nil]
          omega
    | cons q rs =>
      have hi : ¬ i = total - 1 := by
        simp only [List.length_cons] at h; omega
      rw [markupLoop]
      have hrec := ih (i + 1) (markupStep total i st p)
        (by simp only [List.length_cons] at h ⊢; omega)
      have hlast : lastStarCount (p :: q :: rs) = lastStarCount (q :: rs) := by
        simp [lastStarCount, List.getLast?_cons_cons]
      have hlen := markupStep_len total i st p
      by_cases h1 : isSingleHash p = true
      · rw [if_pos (Or.inl h1)] at hlen
        have hcp : List.countP (fun x => isSingleHash x) (p :: q :: rs)
            = List.countP (fun x => isSingleHash x) (q :: rs) + 1 := by
          simp [List.countP_cons, h1]
        rw [hcp, hlast]
        simp only [List.length_cons] at hrec ⊢
        omega
      · rw [Bool.not_eq_true] at h1
        rw [if_neg (by
          rintro (ha | ⟨-, hb⟩)
          · rw [h1] at ha; cases ha
          · exact hi hb)] at hlen
        have hcp : List.countP (fun x => isSingleHash x) (p :: q :: rs)
            = List.countP (fun x => isSingleHash x) (q :: rs) := by
          simp [List.countP_cons, h1]
        rw [hcp, hlast]
        simp only [List.length_cons] at hrec ⊢
        omega

theorem markupStep_openingWords_marked {p : Str} (total i : Nat)
    (st : MarkupState)
    (h : startsWith p ['#'] = true ∨ startsWith p ['*'] = true) :
    (markupStep total i st p).openingWords
      = if isSingleHash p = true then p.drop 1 else st.openingWords := by
  rcases h with h | h
  · by_cases h2 : startsWith p ['#', '#'] = true
    · rw [markupStep_twoHash total i st h2]
      simp [isSingleHash, h, h2]
    · rw [Bool.not_eq_true] at h2
      rw [markupStep_oneHash total i st h2 h]
      simp [isSingleHash, h, h2]
  · have h1 := (not_hash_of_star h).1
    by_cases hi : i = total - 1
    · rw [markupStep_star_last total i st h hi]
      simp [isSingleHash, h1]
    · rw [markupStep_star_nonlast total i st h hi]
      simp [isSingleHash, h1]

theorem markupLoop_openingWords_marked (total : Nat) :
    ∀ (ps : List Str) (i : Nat) (st : MarkupState),
    (∀ p ∈ ps, startsWith p ['#'] = true ∨ startsWith p ['*'] = true) →
    (markupLoop total i ps st).openingWords
      = match (ps.filter (fun p => isSingleHash p)).getLast? with
        | none => st.openingWords
        | some q => q.drop 1 := by
  intro ps
  induction ps with
  | nil => intro i st _; simp [markupLoop]
  | cons p rest ih =>
    intro i st hall
    rw [markupLoop,
      ih (i + 1) (markupStep total i st p)
        (fun q hq => hall q (List.mem_cons_of_mem p hq))]
    have hstep := markupStep_openingWords_marked total i st
      (hall p (List.mem_cons_self p rest))
    by_cases h1 : isSingleHash p = true
    · rw [if_pos h1] at hstep
      rw [List.filter_cons_of_pos (by simpa using h1)]
      cases hfr : rest.filter (fun x => isSingleHash x) with
      | nil => simp [hstep]
      | cons q' l' =>
        cases hgl : (q' :: l').getLast? with
        | none => simp [List.getLast?_eq_none_iff] at hgl
        | some x => rw [List.getLast?_cons_cons, hgl]
    · rw [if_neg h1] at hstep
      rw [List.filter_cons_of_neg (by simpa using h1)]
      cases hfr : rest.filter (fun x => isSingleHash x) with
      | nil => simp [hstep]
      | cons q' l' =>
        cases hgl : (q' :: l').getLast? with
        | none => simp [List.getLast?_eq_none_iff] at hgl
        | some x => rfl

theorem commentcapsBlock_marker (p : Str) :
    ∃ t, commentcapsBlock p = commentMarkerPre ++ t := by
  refine ⟨("caps\">").data ++ p.drop 2 ++ pClose, ?_⟩
  have h : commentcapsOpen = commentMarkerPre ++ ("caps\">").data := by decide
  simp [commentcapsBlock, h, List.append_assoc]

theorem commentBlock_marker (p : Str) :
    ∃ t, commentBlock p = commentMarkerPre ++ t := by
  refine ⟨("\">").data ++ p.drop 1 ++ pClose, ?_⟩
  have h : commentOpen = commentMarkerPre ++ ("\">").data := by decide
  simp [commentBlock, h, List.append_assoc]

theorem markupStep_markedParts_marked {p : Str} (total i : Nat)
    (st : MarkupState)
    (h : startsWith p ['#'] = true ∨ startsWith p ['*'] = true) :
    (markupStep total i st p).markedParts = st.markedParts
    ∨ (markupStep total i st p).markedParts
        = st.markedParts ++ [commentcapsBlock p]
    ∨ (markupStep total i st p).markedParts
        = st.markedParts ++ [commentBlock p] := by
  rcases h with h | h
  · by_cases h2 : startsWith p ['#', '#'] = true
    · exact Or.inr (Or.inl (by rw [markupStep_twoHash total i st h2]))
    · rw [Bool.not_eq_true] at h2
      exact Or.inl (by rw [markupStep_oneHash total i st h2 h])
  · by_cases hi : i = total - 1
    · exact Or.inl (by rw [markupStep_star_last total i st h hi])
    · exact Or.inr (Or.inr (by rw [markupStep_star_nonlast total i st h hi]))

theorem markupLoop_blocks_marked (total : Nat) :
    ∀ (ps : List Str) (i : Nat) (st : MarkupState),
    (∀ p ∈ ps, startsWith p ['#'] = true ∨ startsWith p ['*'] = true) →
    ∀ b ∈ (markupLoop total i ps st).markedParts,
      b ∈ st.markedParts ∨ ∃ t, b = commentMarkerPre ++ t := by
  intro ps
  induction ps with
  | nil => intro i st _ b hb; exact Or.inl hb
  | cons p rest ih =>
    intro i st hall b hb
    rw [markupLoop] at hb
    rcases ih (i + 1) (markupStep total i st p)
        (fun q hq => hall q (List.mem_cons_of_mem p hq)) b hb with
      hmem | hpre
    · rcases markupStep_markedParts_marked total i st
          (hall p (List.mem_cons_self p rest)) with he | he | he
      · rw [he] at hmem; exact Or.inl hmem
      · rw [he] at hmem
        rcases List.mem_append.1 hmem with hl | hr
        · exact Or.inl hl
        · rw [List.mem_singleton.1 hr]
          exact Or.inr (commentcapsBlock_marker p)
      · rw [he] at hmem
        rcases List.mem_append.1 hmem with hl | hr
        · exact Or.inl hl
        · rw [List.mem_singleton.1 hr]
          exact Or.inr (commentBlock_marker p)
    · exact Or.inr hpre

theorem markupLoop_plain_opened (total : Nat) :
    ∀ (ps : List Str) (i : Nat) (st : MarkupState),
    (∀ p ∈ ps, isPlainPara p = true) → st.markedOpening = true →
    markupLoop total i ps st
      = { st with markedParts := st.markedParts ++ ps.map plainBlock } := by
  intro ps
  induction ps with
  | nil => intro i st _ _; cases st; simp [markupLoop]
  | cons p rest ih =>
    intro i st hall hmo
    have hp : startsWith p ['#'] = false ∧ startsWith p ['*'] = false := by
      have := hall p (List.mem_cons_self p rest)
      simpa [isPlainPara, Bool.and_eq_true, Bool.not_eq_true'] using this
    rw [markupLoop, markupStep_plain_opened total i st hp.1 hp.2 hmo,
      ih (i + 1) _ (fun q hq => hall q (List.mem_cons_of_mem p hq))
        (by exact hmo)]
    cases st
    simp [List.append_assoc]

theorem markupLoop_markedParts_grow (total : Nat) :
    ∀ (ps : List Str) (i : Nat) (st : MarkupState),
    ∃ new, (markupLoop total i ps st).markedParts
      = st.markedParts ++ new := by
  intro ps
  induction ps with
  | nil => intro i st; exact ⟨[], by simp [markupLoop]⟩
  | cons p rest ih =>
    intro i st
    obtain ⟨n1, hn1⟩ := markupStep_markedParts_grow total i st p
    obtain ⟨n2, hn2⟩ := ih (i + 1) (markupStep total i st p)
    exact ⟨n1 ++ n2, by rw [markupLoop, hn2, hn1, List.append_assoc]⟩

theorem commentBlock_mem_loop (c : List Str) (st0 : MarkupState) (p : Str)
    (hp : p ∈ c.dropLast) (hs : startsWith p ['*'] = true) :
    commentBlock p ∈ (markupLoop c.length 0 c st0).markedParts := by
  have hne : c ≠ [] := by
    intro he; rw [he] at hp; simp at hp
  obtain ⟨s, t, hst⟩ := List.append_of_mem hp
  have hc2 : c = s ++ p :: (t ++ [c.getLast hne]) := by
    conv_lhs => rw [← List.dropLast_append_getLast hne]
    rw [hst]
    simp
  rw [hc2, markupLoop_append, markupLoop]
  have hi : ¬ (0 + s.length) = (s ++ p :: (t ++ [c.getLast hne])).length - 1 := by
    simp only [List.length_append, List.length_cons, List.length_nil]
    omega
  rw [markupStep_star_nonlast _ _ _ hs hi]
  obtain ⟨new, hnew⟩ :=
    markupLoop_markedParts_grow (s ++ p :: (t ++ [c.getLast hne])).length
      (t ++ [c.getLast hne]) (0 + s.length + 1) _
  rw [hnew]
  simp

theorem insertAll_noFail (iso : Str) :
    ∀ (ps : List Prayer) (i : Nat) (acc : List Row),
    insertAll iso (fun _ => false) i ps acc
      = some (acc ++ ps.map (rowOf iso)) := by
  intro ps
  induction ps with
  | nil => intro i acc; simp [insertAll]
  | cons p rest ih =>
    intro i acc
    simp [insertAll, ih, List.append_assoc]

theorem insertAll_some (iso : Str) (f : Nat → Bool) :
    ∀ (ps : List Prayer) (i : Nat) (acc buf : List Row),
    insertAll iso f i ps acc = some buf → buf = acc ++ ps.map (rowOf iso) := by
  intro ps
  induction ps with
  | nil =>
    intro i acc buf h
    simp only [insertAll, Option.some.injEq] at h
    simp [← h]
  | cons p rest ih =>
    intro i acc buf h
    simp only [insertAll] at h
    by_cases hf : f i = true
    · rw [if_pos hf] at h; cases h
    · rw [if_neg hf] at h
      rw [ih (i + 1) (acc ++ [rowOf iso p]) buf h]
      simp

theorem replaceAllF_no_occ (pat : Str) :
    ∀ (n : Nat) (s : Str), containsSub s pat = false →
    replaceAllF pat n s = s := by
  intro n
  induction n with
  | zero =>
    intro s _
    cases s <;> rfl
  | succ n ih =>
    intro s h
    cases s with
    | nil => rfl
    | cons c rest =>
      have hns : startsWith (c :: rest) pat = false
          ∧ containsSub rest pat = false := by
        simpa [containsSub, Bool.or_eq_false_iff] using h
      rw [replaceAllF, if_neg (by simp [hns.1]), ih rest hns.2]

theorem replaceAll_no_occ (pat s : Str) (h : containsSub s pat = false) :
    replaceAll pat s = s :=
  replaceAllF_no_occ pat s.length s h

theorem foldl_replaceAll_no_occ :
    ∀ (pats : List Str) (s : Str),
    (∀ pat ∈ pats, containsSub s pat = false) →
    pats.foldl (fun acc pat => replaceAll pat acc) s = s := by
  intro pats
  induction pats with
  | nil => intro s _; rfl
  | cons pat rest ih =>
    intro s h
    rw [List.foldl_cons, replaceAll_no_occ pat s (h pat (List.mem_cons_self pat rest))]
    exact ih s (fun q hq => h q (List.mem_cons_of_mem pat hq))

/-- C1: for every raw prayer text, the markup walk assigns as citation the
tag-stripped content of the last cleaned paragraph exactly when that
paragraph carries a leading asterisk (an empty citation otherwise), emits
every non-last asterisk paragraph as a comment block, and emits exactly one
body block per cleaned paragraph except for the single-hash paragraphs and
an asterisk-led last paragraph, which are dropped from the body. -/
theorem c1_star_citation (text : Str) :
    ((markup text).citation
      = match (cleanedParts text).getLast? with
        | none => []
        | some l => if startsWith l ['*'] = true then l.drop 1 else [])
  ∧ (∀ p ∈ (cleanedParts text).dropLast, startsWith p ['*'] = true →
      commentBlock p ∈ (markup text).markedParts)
  ∧ ((markup text).markedParts.length
      + (cleanedParts text).countP (fun p => isSingleHash p)
      + lastStarCount (cleanedParts text)
    = (cleanedParts text).length) := by
  refine ⟨?_, ?_, ?_⟩
  · rw [markup, markupWithInit,
      markupLoop_citation (cleanedParts text).length (cleanedParts text) 0
        ⟨[], false, [], []⟩ (by simp)]
  · intro p hp hs
    rw [markup, markupWithInit]
    exact commentBlock_mem_loop (cleanedParts text) ⟨[], false, [], []⟩ p hp hs
  · have h := markupLoop_len (cleanedParts text).length (cleanedParts text) 0
      ⟨[], false, [], []⟩ (by simp)
    rw [markup, markupWithInit]
    simpa using h

/-- Witness for C1 on a text whose last paragraph and one interior paragraph
carry the asterisk marker. -/
theorem c1_star_citation_witness :
    commentBlock (("*A").data)
      ∈ (markup (("*A\nB\n*C").data)).markedParts :=
  (c1_star_citation (("*A\nB\n*C").data)).2.1 (("*A").data)
    (by decide) (by decide)

/-- C2: a qualifying (non-marker) paragraph processed while markedOpening is
still false yields openingWords equal to the first 35 characters of the
paragraph followed by the ellipsis when the paragraph has at least 35
characters, and to the whole paragraph followed by the ellipsis when it is
shorter. -/
theorem c2_openingWords_truncation (total i : Nat) (st : MarkupState)
    (p : Str) (hmo : st.markedOpening = false)
    (h1 : startsWith p ['#'] = false) (hs : startsWith p ['*'] = false) :
    (35 ≤ p.length →
      (markupStep total i st p).openingWords = p.take 35 ++ [ellipsisChar])
  ∧ (p.length < 35 →
      (markupStep total i st p).openingWords = p ++ [ellipsisChar]) := by
  rw [markupStep_plain_fresh total i st h1 hs hmo]
  constructor
  · intro hge
    have hlt : ¬ p.length < 35 := by omega
    simp [hlt]
  · intro hlt
    simp [hlt, List.take_length]

/-- Witness for C2 at the spec's example paragraph. -/
theorem c2_openingWords_truncation_witness :
    (markupStep 1 0 ⟨[], false, [], []⟩
        (("O Thou kind Lord!").data)).openingWords
      = ("O Thou kind Lord!").data ++ [ellipsisChar] :=
  (c2_openingWords_truncation 1 0 ⟨[], false, [], []⟩
      (("O Thou kind Lord!").data) rfl (by decide) (by decide)).2 (by decide)

/-- C3: categorization inspects only the first tag's kind: GENERAL keeps the
title and takes the tag's name verbatim as category; OBLIGATORY and
OCCASSIONAL take the localized label as category and overwrite the title
with the tag's name (aborting when no label translation is registered);
TABLETS takes the localized label with the title unchanged; any other kind
aborts instead of assigning a default. -/
theorem c3_categorize_first_tag (lang : Language) (p : Prayer) (tag : Tag)
    (rest : List Tag) (htags : p.Tags = tag :: rest) :
    (tag.Kind = tagKindGeneral →
      categorizePrayer lang p = some { p with category := tag.Name })
  ∧ (tag.Kind = tagKindObligatory →
      categorizePrayer lang p
        = (obligatory lang).map
            (fun lbl => { p with category := lbl, Title := tag.Name }))
  ∧ (tag.Kind = tagKindOccassional →
      categorizePrayer lang p
        = (occassional lang).map
            (fun lbl => { p with category := lbl, Title := tag.Name }))
  ∧ (tag.Kind = tagKindTablets →
      categorizePrayer lang p
        = (tablets lang).map (fun lbl => { p with category := lbl }))
  ∧ (tag.Kind ≠ tagKindGeneral → tag.Kind ≠ tagKindObligatory →
      tag.Kind ≠ tagKindOccassional → tag.Kind ≠ tagKindTablets →
      categorizePrayer lang p = none)
  ∧ (∀ rest' : List Tag,
      (categorizePrayer lang { p with Tags := tag :: rest' }).map
          (fun q => (q.category, q.Title))
        = (categorizePrayer lang p).map (fun q => (q.category, q.Title))) := by
  refine ⟨?_, ?_, ?_, ?_, ?_, ?_⟩
  · intro hk
    simp only [categorizePrayer, htags]
    rw [if_pos hk]
  · intro hk
    have h1 : ¬ tag.Kind = tagKindGeneral := by rw [hk]; decide
    simp only [categorizePrayer, htags]
    rw [if_neg h1, if_pos hk]
  · intro hk
    have h1 : ¬ tag.Kind = tagKindGeneral := by rw [hk]; decide
    have h2 : ¬ tag.Kind = tagKindObligatory := by rw [hk]; decide
    simp only [categorizePrayer, htags]
    rw [if_neg h1, if_neg h2, if_pos hk]
  · intro hk
    have h1 : ¬ tag.Kind = tagKindGeneral := by rw [hk]; decide
    have h2 : ¬ tag.Kind = tagKindObligatory := by rw [hk]; decide
    have h3 : ¬ tag.Kind = tagKindOccassional := by rw [hk]; decide
    simp only [categorizePrayer, htags]
    rw [if_neg h1, if_neg h2, if_neg h3, if_pos hk]
  · intro h1 h2 h3 h4
    simp only [categorizePrayer, htags]
    rw [if_neg h1, if_neg h2, if_neg h3, if_neg h4]
  · intro rest'
    simp only [categorizePrayer, htags]
    by_cases hg : tag.Kind = tagKindGeneral
    · rw [if_pos hg, if_pos hg]; simp
    · rw [if_neg hg, if_neg hg]
      by_cases ho : tag.Kind = tagKindObligatory
      · rw [if_pos ho, if_pos ho]
        cases obligatory lang <;> simp
      · rw [if_neg ho, if_neg ho]
        by_cases hoc : tag.Kind = tagKindOccassional
        · rw [if_pos hoc, if_pos hoc]
          cases occassional lang <;> simp
        · rw [if_neg hoc, if_neg hoc]
          by_cases ht : tag.Kind = tagKindTablets
          · rw [if_pos ht, if_pos ht]
            cases tablets lang <;> simp
          · rw [if_neg ht, if_neg ht]

/-- Witness for C3 on the spec's Healing example and on the unknown WEEKLY
kind. -/
theorem c3_categorize_first_tag_witness :
    (categorizePrayer englishLang healingPrayer
      = some { healingPrayer with category := ("Healing").data })
  ∧ categorizePrayer englishLang weeklyPrayer = none :=
  ⟨(c3_categorize_first_tag englishLang healingPrayer _ _ rfl).1 rfl,
   (c3_categorize_first_tag englishLang weeklyPrayer _ _ rfl).2.2.2.2.1
     (by decide) (by decide) (by decide) (by decide)⟩

theorem take_trunc_eq (p : Str) :
    p.take (if p.length < 35 then p.length else 35) = p.take 35 := by
  by_cases h : p.length < 35
  · rw [if_pos h, List.take_length, List.take_of_length_le (Nat.le_of_lt h)]
  · rw [if_neg h]

/-- C4 counterexample: stripping is sequential, so on this input the pass
removing the opening-paragraph tag creates a new occurrence of the italic
tag, which a later pass removes as well; the characters left, right and
between the original tags are therefore not left untouched, against the
claim's fixed-vocabulary description (embodied by specSimultaneousStrip). -/
theorem c4_cascade_counterexample :
    searchTextOf cascadeInput = []
  ∧ specSimultaneousStrip cascadeInput = ['<', 'i', '>']
  ∧ searchTextOf cascadeInput ≠ specSimultaneousStrip cascadeInput :=
  ⟨by decide, by decide, by decide⟩

/-- C4 (amended): the normalizer applies thirteen sequential global
replacements over exactly the enumerated vocabulary: a string containing no
occurrence of any enumerated tag is left untouched, each enumerated tag
itself strips to the empty string, and the spec's example strips to O Lord
with word count two.  (A removal may create a new occurrence of a
later-listed tag, which is then removed too.) -/
theorem c4_fixed_vocabulary :
    (∀ s : Str,
      (∀ pat ∈ tagVocabulary, containsSub s pat = false) →
      searchTextOf s = s)
  ∧ (∀ pat ∈ tagVocabulary, searchTextOf pat = [])
  ∧ searchTextOf exampleMarked = ("O Lord").data
  ∧ wordCountOf exampleMarked = 2 := by
  refine ⟨?_, ?_, ?_, ?_⟩
  · intro s h
    exact foldl_replaceAll_no_occ tagVocabulary s h
  · decide
  · decide
  · decide

/-- Witness for C4 on a tag-free string and on one vocabulary tag. -/
theorem c4_fixed_vocabulary_witness :
    searchTextOf (("Hello Lord").data) = ("Hello Lord").data
  ∧ searchTextOf (("<p>").data) = [] :=
  ⟨c4_fixed_vocabulary.1 (("Hello Lord").data) (by decide),
   c4_fixed_vocabulary.2.1 (("<p>").data) (by decide)⟩

/-- C5 counterexample: this text has zero qualifying non-marker paragraphs,
yet its body is nonempty (the double-hash paragraph is emitted as a
commentcaps block) and its openingWords field is set (by the single-hash
paragraph), against the claimed empty body and unset openingWords. -/
theorem c5_marker_counterexample :
    (cleanedParts (("##A\n#B").data)).all
        (fun p => startsWith p ['#']) = true
  ∧ (markup (("##A\n#B").data)).openingWords = ['B']
  ∧ htmlPrayerOf (("##A\n#B").data) ≠ [] :=
  ⟨by decide, by decide, by decide⟩

/-- C5 (amended): for a text whose cleaned paragraphs all carry markers
(each starts with a hash or an asterisk), the walk never sets
markedOpening, every emitted body block is a comment or commentcaps block,
and openingWords equals the tag-stripped content of the last single-hash
paragraph, remaining unset only when no single-hash paragraph exists. -/
theorem c5_all_marker_no_opening (text : Str)
    (hall : ∀ p ∈ cleanedParts text,
      startsWith p ['#'] = true ∨ startsWith p ['*'] = true) :
    (markup text).markedOpening = false
  ∧ (∀ b ∈ (markup text).markedParts, ∃ t, b = commentMarkerPre ++ t)
  ∧ (markup text).openingWords
      = match ((cleanedParts text).filter
            (fun p => isSingleHash p)).getLast? with
        | none => []
        | some q => q.drop 1 := by
  refine ⟨?_, ?_, ?_⟩
  · rw [markup, markupWithInit,
      markupLoop_markedOpening (cleanedParts text).length (cleanedParts text)
        0 ⟨[], false, [], []⟩]
    have hany : (cleanedParts text).any isPlainPara = false := by
      rw [List.any_eq_false]
      intro p hp
      rcases hall p hp with h | h
      · simp [isPlainPara, h]
      · simp [isPlainPara, h]
    simp [hany]
  · intro b hb
    rw [markup, markupWithInit] at hb
    rcases markupLoop_blocks_marked (cleanedParts text).length
        (cleanedParts text) 0 ⟨[], false, [], []⟩ hall b hb with hmem | hpre
    · simp at hmem
    · exact hpre
  · rw [markup, markupWithInit,
      markupLoop_openingWords_marked (cleanedParts text).length
        (cleanedParts text) 0 ⟨[], false, [], []⟩ hall]

/-- Witness for C5 on a text of three marker paragraphs. -/
theorem c5_all_marker_no_opening_witness :
    (markup (("##A\n#B\n*C").data)).markedOpening = false :=
  (c5_all_marker_no_opening (("##A\n#B\n*C").data) (by decide)).1

/-- C6 counterexample: the marker-free text of two paragraphs produces two
body blocks, an opening block followed by a plain block, so the body is not
a single opening-wrapped paragraph as the claim states. -/
theorem c6_two_paragraph_counterexample :
    (cleanedParts (("Hello\nWorld").data)).all (fun p => isPlainPara p)
        = true
  ∧ (markup (("Hello\nWorld").data)).markedParts.length = 2
  ∧ htmlPrayerOf (("Hello\nWorld").data) ≠ openingBlock (("Hello").data) :=
  ⟨by decide, by decide, by decide⟩

/-- C6 (amended): for a marker-free text with a nonempty cleaned sequence,
the first paragraph is emitted as the body's only opening-wrapped block,
every later paragraph follows as a plain block, openingWords is derived
from that first paragraph (first 35 characters plus the ellipsis), the
citation is empty, and the body is exactly the opening block when the text
has a single cleaned paragraph. -/
theorem c6_no_marker_opening (text : Str) (p0 : Str) (rest : List Str)
    (hc : cleanedParts text = p0 :: rest)
    (hall : ∀ p ∈ cleanedParts text, isPlainPara p = true) :
    (markup text).markedParts = openingBlock p0 :: rest.map plainBlock
  ∧ (markup text).openingWords = p0.take 35 ++ [ellipsisChar]
  ∧ (markup text).citation = []
  ∧ (rest = [] → htmlPrayerOf text = openingBlock p0) := by
  have hp0 : startsWith p0 ['#'] = false ∧ startsWith p0 ['*'] = false := by
    have := hall p0 (by rw [hc]; exact List.mem_cons_self p0 rest)
    simpa [isPlainPara, Bool.and_eq_true, Bool.not_eq_true'] using this
  have hrest : ∀ p ∈ rest, isPlainPara p = true := by
    intro p hp
    exact hall p (by rw [hc]; exact List.mem_cons_of_mem p0 hp)
  have hmain : markup text =
      { markedParts := openingBlock p0 :: rest.map plainBlock,
        markedOpening := true,
        openingWords :=
          p0.take (if p0.length < 35 then p0.length else 35) ++ [ellipsisChar],
        citation := [] } := by
    rw [markup, markupWithInit, hc, markupLoop,
      markupStep_plain_fresh (p0 :: rest).length 0 ⟨[], false, [], []⟩
        hp0.1 hp0.2 rfl,
      markupLoop_plain_opened (p0 :: rest).length rest 1 _ hrest rfl]
    simp
  refine ⟨?_, ?_, ?_, ?_⟩
  · rw [hmain]
  · rw [hmain]
    show p0.take (if p0.length < 35 then p0.length else 35) ++ [ellipsisChar]
      = p0.take 35 ++ [ellipsisChar]
    rw [take_trunc_eq]
  · rw [hmain]
  · intro hre
    rw [htmlPrayerOf, hmain, hre]
    rfl

/-- Witness for C6 on the two-paragraph marker-free text. -/
theorem c6_no_marker_opening_witness :
    (markup (("Hello\nWorld").data)).openingWords
      = (("Hello").data).take 35 ++ [ellipsisChar] :=
  (c6_no_marker_opening (("Hello\nWorld").data) (("Hello").data)
    [(("World").data)] (by decide) (by decide)).2.1

/-- C7 counterexample: the author-name lookup is a plain Go map index; for
an unregistered language code it silently yields the empty string instead of
failing fatally, against the claim that no lookup silently substitutes a
default. -/
theorem c7_author_silent_default :
    languageAuthorMap.lookup (("xx").data) = none
  ∧ authorFor (("xx").data) 1 = [] :=
  ⟨by decide, by decide⟩

/-- C7 (amended): each of the four category-label lookups returns a
registered translation exactly for the registered ids (English, German and
Russian; English alone for The Fast) and fails fatally otherwise; the
registered Russian Tablets translation is the empty string; the author-name
lookup never fails — it yields the registered name when present and
silently yields the empty string for an unregistered language code or
author id. -/
theorem c7_label_lookups (l : Language) (iso : Str) (aid : Int) :
    ((obligatory l).isSome = true ↔
      (l.ID = English ∨ l.ID = German ∨ l.ID = Russian))
  ∧ ((tablets l).isSome = true ↔
      (l.ID = English ∨ l.ID = German ∨ l.ID = Russian))
  ∧ ((occassional l).isSome = true ↔
      (l.ID = English ∨ l.ID = German ∨ l.ID = Russian))
  ∧ ((theFast l).isSome = true ↔ l.ID = English)
  ∧ (l.ID = Russian → tablets l = some [])
  ∧ (languageAuthorMap.lookup iso = none → authorFor iso aid = [])
  ∧ (∀ tbl, languageAuthorMap.lookup iso = some tbl →
      tbl.lookup aid = none → authorFor iso aid = [])
  ∧ (∀ tbl name, languageAuthorMap.lookup iso = some tbl →
      tbl.lookup aid = some name → authorFor iso aid = name) := by
  refine ⟨?_, ?_, ?_, ?_, ?_, ?_, ?_, ?_⟩
  · unfold obligatory
    by_cases h1 : l.ID = English
    · simp [h1]
    · by_cases h2 : l.ID = German
      · simp [h1, h2, English, German, Russian]
      · by_cases h3 : l.ID = Russian
        · simp [h1, h2, h3, English, German, Russian]
        · simp [h1, h2, h3]
  · unfold tablets
    by_cases h1 : l.ID = English
    · simp [h1]
    · by_cases h2 : l.ID = German
      · simp [h1, h2, English, German, Russian]
      · by_cases h3 : l.ID = Russian
        · simp [h1, h2, h3, English, German, Russian]
        · simp [h1, h2, h3]
  · unfold occassional
    by_cases h1 : l.ID = English
    · simp [h1]
    · by_cases h2 : l.ID = German
      · simp [h1, h2, English, German, Russian]
      · by_cases h3 : l.ID = Russian
        · simp [h1, h2, h3, English, German, Russian]
        · simp [h1, h2, h3]
  · unfold theFast
    by_cases h1 : l.ID = English
    · simp [h1]
    · simp [h1]
  · intro h
    simp [tablets, h, English, German, Russian]
  · intro h
    simp [authorFor, h]
  · intro tbl h1 h2
    simp [authorFor, h1, h2]
  · intro tbl name h1 h2
    simp [authorFor, h1, h2]

/-- Witness for C7 at the Russian Tablets entry and an unregistered code. -/
theorem c7_label_lookups_witness :
    tablets russianLang = some [] ∧ authorFor (("xx").data) 5 = [] :=
  ⟨(c7_label_lookups russianLang (("xx").data) 5).2.2.2.2.1 rfl,
   (c7_label_lookups russianLang (("xx").data) 5).2.2.2.2.2.1 (by decide)⟩

/-- C8 counterexample: with a single prayer whose insert fails, the write
aborts through log.Fatal, which skips the deferred rollback (the
fatalNoRollback outcome), and leaves the store as the freshly created empty
table: the file exists, so the store is not at the claimed pre-run removed
state, and it holds zero of the one row, so it is not fully populated
either. -/
theorem c8_insert_failure_counterexample :
    populateDatabase none englishLang [healingPrayer] (fun _ => true) false
      = WriteResult.fatalNoRollback
          (some { tableCreated := true, rows := [] })
  ∧ (some { tableCreated := true, rows := ([] : List Row) }
      ≠ (none : Option DBFile))
  ∧ ([] : List Row).length ≠ [healingPrayer].length :=
  ⟨rfl, by decide, by decide⟩

/-- C8 (amended): whatever the failure oracles say, the per-language write
leaves the durable store either fully populated with exactly one row per
prayer (on successful commit) or as the freshly created empty table; on a
failing insert the process exits without running the deferred rollback, on
a failing commit the deferred rollback runs before the error is returned;
the store never holds a proper nonempty subset of the rows, and is never at
its pre-run state once the run has begun. -/
theorem c8_all_or_nothing (prior : Option DBFile) (lang : Language)
    (prayers : List Prayer) (insertFails : Nat → Bool)
    (commitFails : Bool) :
    populateDatabase prior lang prayers insertFails commitFails
        = WriteResult.committed
            (some { tableCreated := true,
                    rows := prayers.map (rowOf lang.ISOName) })
  ∨ populateDatabase prior lang prayers insertFails commitFails
        = WriteResult.fatalNoRollback
            (some { tableCreated := true, rows := [] })
  ∨ populateDatabase prior lang prayers insertFails commitFails
        = WriteResult.errorRolledBack
            (some { tableCreated := true, rows := [] }) := by
  unfold populateDatabase createStore
  cases hins : insertAll lang.ISOName insertFails 0 prayers [] with
  | none => simp [hins]
  | some buf =>
    have hbuf : buf = prayers.map (rowOf lang.ISOName) := by
      have h := insertAll_some lang.ISOName insertFails prayers 0 [] buf hins
      simpa using h
    by_cases hc : commitFails = true
    · simp [hins, hc]
    · simp [hins, hc, hbuf]

/-- C9: the per-language write ignores the prior store file (delete then
recreate): a failure-free run from any prior state commits the same fully
populated store, and an immediate second run reproduces it with identical
row count and content — recreation, not accumulation. -/
theorem c9_idempotent (prior : Option DBFile) (lang : Language)
    (prayers : List Prayer) :
    populateDatabase
        (storeOf (populateDatabase prior lang prayers (fun _ => false) false))
        lang prayers (fun _ => false) false
      = populateDatabase prior lang prayers (fun _ => false) false
  ∧ populateDatabase prior lang prayers (fun _ => false) false
      = WriteResult.committed
          (some { tableCreated := true,
                  rows := prayers.map (rowOf lang.ISOName) }) := by
  have hrun : ∀ pr : Option DBFile,
      populateDatabase pr lang prayers (fun _ => false) false
        = WriteResult.committed
            (some { tableCreated := true,
                    rows := prayers.map (rowOf lang.ISOName) }) := by
    intro pr
    unfold populateDatabase createStore
    rw [insertAll_noFail lang.ISOName prayers 0 []]
    simp
  exact ⟨by rw [hrun, hrun], hrun prior⟩

/-- C10 counterexample: a prayer whose first tag kind is OBLIGATORY but
whose tag name is empty keeps an empty Title through categorization, so the
stored opening-words column takes the markup-derived openingWords field and
not the Title — against the claim's parenthetical that every
OBLIGATORY-tagged prayer falls in the nonempty-Title case. -/
theorem c10_empty_title_counterexample :
    emptyNameObligatoryPrayer.Tags.map Tag.Kind = [tagKindObligatory]
  ∧ categorizePrayer englishLang emptyNameObligatoryPrayer
      = some emptyNameObligatoryCategorized
  ∧ emptyNameObligatoryCategorized.Title = []
  ∧ (rowOf (("en").data)
        (markupPrayer emptyNameObligatoryCategorized)).openingWords
      = ("Hello").data ++ [ellipsisChar]
  ∧ (rowOf (("en").data)
        (markupPrayer emptyNameObligatoryCategorized)).openingWords
      ≠ emptyNameObligatoryCategorized.Title :=
  ⟨by decide, by decide, by decide, by decide, by decide⟩

/-- C10 (amended): the stored opening-words column equals the prayer's
Title whenever Title is nonempty and the markup-derived openingWords field
when Title is empty; after categorization this covers every prayer whose
first tag kind is OBLIGATORY or OCCASSIONAL with a NONEMPTY tag name, whose
stored opening words equal that tag name. -/
theorem c10_stored_opening_words (iso : Str) (lang : Language) (p : Prayer)
    (tag : Tag) (rest : List Tag) (q : Prayer) :
    (p.Title ≠ [] → (rowOf iso p).openingWords = p.Title)
  ∧ (p.Title = [] → (rowOf iso p).openingWords = p.openingWords)
  ∧ (p.Tags = tag :: rest →
      (tag.Kind = tagKindObligatory ∨ tag.Kind = tagKindOccassional) →
      tag.Name ≠ [] →
      categorizePrayer lang p = some q →
      (rowOf iso (markupPrayer q)).openingWords = tag.Name) := by
  refine ⟨?_, ?_, ?_⟩
  · intro h
    simp [rowOf, h]
  · intro h
    simp [rowOf, h]
  · intro htags hk hname hcat
    have hqt : q.Title = tag.Name := by
      rcases hk with hk | hk
      · have h1 : ¬ tag.Kind = tagKindGeneral := by rw [hk]; decide
        simp only [categorizePrayer, htags] at hcat
        rw [if_neg h1, if_pos hk] at hcat
        rcases Option.map_eq_some'.1 hcat with ⟨lbl, -, hq⟩
        rw [← hq]
      · have h1 : ¬ tag.Kind = tagKindGeneral := by rw [hk]; decide
        have h2 : ¬ tag.Kind = tagKindObligatory := by rw [hk]; decide
        simp only [categorizePrayer, htags] at hcat
        rw [if_neg h1, if_neg h2, if_pos hk] at hcat
        rcases Option.map_eq_some'.1 hcat with ⟨lbl, -, hq⟩
        rw [← hq]
    have hne : (markupPrayer q).Title ≠ [] := by
      show q.Title ≠ []
      rw [hqt]
      exact hname
    simp only [rowOf]
    rw [if_pos hne]
    exact hqt

/-- Witness for C10 on the categorized Long Obligatory Prayer example. -/
theorem c10_stored_opening_words_witness :
    (rowOf (("en").data)
        (markupPrayer longObligatoryCategorized)).openingWords
      = ("Long Obligatory Prayer").data :=
  (c10_stored_opening_words (("en").data) englishLang longObligatoryPrayer
      _ [] longObligatoryCategorized).2.2 rfl (Or.inl rfl) (by decide)
    (by decide)

end BPNet
